import Mathlib

/-!
Verification of the HMM implementation in src/hmm/hmm.py (class HMM):
Baum-Welch training (forward/backward passes, pairwise posterior gamma,
marginal posterior delta, M-step updates of the transition and emission
matrices) and Viterbi decoding.

Modelling conventions.  A 2-d numpy array of floats is a List (List ℚ),
row-major, and exact rationals stand for IEEE doubles.  Reading an entry
out of range yields the default 0 (the source would raise IndexError
there; no verified statement depends on an out-of-range read).  Division
is the total division of ℚ, so a zero denominator yields 0 where numpy
would produce NaN or infinity with a warning.  The failure
modes - the two assert statements on observation values, the asserts in
the constructor and the numpy broadcasting failure inside np.allclose -
are modelled with an Except monad over the error taxonomy that the
design document gives them.
-/

namespace HmmPy

/-- Error taxonomy of the design document, mapped onto the concrete
failures of the source: observationRange is the AssertionError of the
observation-count asserts in train and viterbi, invalidParameter the
AssertionError of the two np.allclose asserts in the constructor,
shapeError the ValueError numpy raises when np.allclose cannot
broadcast its arguments, and degenerateNormalizer the postulated error
for a zero likelihood normalizer. -/
inductive HmmError where
  | observationRange
  | invalidParameter
  | shapeError
  | degenerateNormalizer
deriving DecidableEq, Repr

/-- Entry v[i] of a 1-d array, default 0 out of range. -/
def entV (v : List ℚ) (i : ℕ) : ℚ := v.getD i 0

/-- Entry m[i, j] of a 2-d array. -/
def entM (m : List (List ℚ)) (i j : ℕ) : ℚ := (m.getD i []).getD j 0

/-- Entry g[t, i, j] of a 3-d array. -/
def entT (g : List (List (List ℚ))) (t i j : ℕ) : ℚ := ((g.getD t []).getD i []).getD j 0

/-- np.dot of two 1-d arrays. -/
def np_dot (xs ys : List ℚ) : ℚ := (List.zipWith (fun a b => a * b) xs ys).sum

/-- np.dot of a 2-d array and a 1-d array. -/
def np_matvec (m : List (List ℚ)) (v : List ℚ) : List ℚ := m.map (fun row => np_dot row v)

/-- Elementwise product of two 1-d arrays (numpy broadcasting of equal shapes). -/
def vmul (xs ys : List ℚ) : List ℚ := List.zipWith (fun a b => a * b) xs ys

/-- np.transpose of a 2-d array. -/
def np_transpose (m : List (List ℚ)) : List (List ℚ) :=
  (List.range ((m.getD 0 []).length)).map (fun j => m.map (fun r => r.getD j 0))

/-- np.sum(m, axis=0): the column sums of a 2-d array. -/
def colSums (m : List (List ℚ)) : List ℚ :=
  (List.range ((m.getD 0 []).length)).map (fun j => (m.map (fun r => r.getD j 0)).sum)

/-- p_transition[:-1, :-1], the N x N real-state block of the transition
matrix (N = number of hidden states). -/
def realBlock (A : List (List ℚ)) (N : ℕ) : List (List ℚ) :=
  (A.take N).map (fun r => r.take N)

/-- p_transition[:-1, -1], the START column restricted to real-state
rows; for rows of length N + 1 the final entry is entry N. -/
def startColumn (A : List (List ℚ)) (N : ℕ) : List ℚ :=
  (A.take N).map (fun r => r.getD N 0)

/-- Tail of calc_forward_probabilities: given the row for time t - 1,
produce the rows for the remaining indices; each new row is
p_emission[y_t] * np.dot(Ablk, previous row). -/
def forwardAux (Ablk Bm : List (List ℚ)) (prev : List ℚ) : List ℕ → List (List ℚ)
  | [] => []
  | k :: ks =>
      let cur := vmul (Bm.getD k []) (np_matvec Ablk prev)
      cur :: forwardAux Ablk Bm cur ks

/-- calc_forward_probabilities: row 0 is
p_transition[:-1, -1] * p_emission[y_0], and row t for t >= 1 is
p_emission[y_t] * np.dot(p_transition[:-1, :-1], row (t-1)). -/
def calc_forward_probabilities (Ablk Bm : List (List ℚ)) (pi0 : List ℚ) (idx : List ℕ) :
    List (List ℚ) :=
  match idx with
  | [] => []
  | k :: ks =>
      let r0 := vmul pi0 (Bm.getD k [])
      r0 :: forwardAux Ablk Bm r0 ks

/-- One step of calc_backward_probabilities: row t from row t + 1 via
np.sum(next * p_emission[y_{t+1}] * np.transpose(Ablk), axis=1). -/
def backStep (Ablk Bm : List (List ℚ)) (k : ℕ) (next : List ℚ) : List ℚ :=
  (np_transpose Ablk).map (fun rowT => (vmul (vmul next (Bm.getD k [])) rowT).sum)

/-- Rows of the backward table for times t..T-1, driven by the indices
y_{t+1}..y_{T-1}; the base case is the all-ones row at time T - 1. -/
def backwardAux (Ablk Bm : List (List ℚ)) (N : ℕ) : List ℕ → List (List ℚ)
  | [] => [List.replicate N 1]
  | k :: ks =>
      let rest := backwardAux Ablk Bm N ks
      backStep Ablk Bm k (rest.getD 0 []) :: rest

/-- calc_backward_probabilities: backward[T-1] = 1 and backward[t] is
computed from backward[t+1] with the observation index y_{t+1}. -/
def calc_backward_probabilities (Ablk Bm : List (List ℚ)) (N : ℕ) (idx : List ℕ) :
    List (List ℚ) :=
  backwardAux Ablk Bm N (idx.drop 1)

/-- The unnormalized slice gamma[t] of calc_gamma:
gamma[t,i,j] = forward[t,i] * p_transition[j,i] * backward[t+1,j]
* p_emission[y_{t+1}, j]. -/
def gammaSliceRaw (A Bm al be : List (List ℚ)) (idx : List ℕ) (N t : ℕ) : List (List ℚ) :=
  (List.range N).map (fun i => (List.range N).map (fun j =>
    entM al t i * entM A j i * entM be (t + 1) j * entM Bm (idx.getD (t + 1) 0) j))

/-- calc_gamma: slices for t = 0..T-2, each divided by the scalar
np.dot(forward[t], backward[t]); the slice at t = T-1 stays the zero
matrix it was initialised to. -/
def calc_gamma (A Bm al be : List (List ℚ)) (idx : List ℕ) (N : ℕ) :
    List (List (List ℚ)) :=
  (List.range (idx.length - 1)).map (fun t =>
    let denom := np_dot (al.getD t []) (be.getD t [])
    (gammaSliceRaw A Bm al be idx N t).map (fun row => row.map (fun x => x / denom)))
  ++ [List.replicate N (List.replicate N 0)]

/-- calc_delta: delta = np.sum(gamma, axis=2), then the final row is
overwritten with forward[-1] / np.sum(forward[-1]). -/
def calc_delta (gam : List (List (List ℚ))) (al : List (List ℚ)) : List (List ℚ) :=
  let d0 := gam.map (fun sl => sl.map (fun row => row.sum))
  let lastF := al.getD (al.length - 1) []
  d0.dropLast ++ [lastF.map (fun x => x / lastF.sum)]

/-- update_p_transition: row i < N of the new matrix holds
np.sum(gamma[:-1], axis=0)[i, j] / np.sum(delta[:-1], axis=0)[i] in the
real-state columns and delta[0, i] in the START column; the STOP row is
left unchanged. -/
def update_p_transition (A : List (List ℚ)) (gam : List (List (List ℚ)))
    (del : List (List ℚ)) (N : ℕ) : List (List ℚ) :=
  ((List.range N).map (fun i =>
    (List.range N).map (fun j =>
      ((gam.dropLast).map (fun sl => entM sl i j)).sum
        / ((del.dropLast).map (fun r => r.getD i 0)).sum)
    ++ [(del.getD 0 []).getD i 0]))
  ++ A.drop N

/-- The one-hot (dirac) encoding of the observation indices. -/
def dirac (idx : List ℕ) (t v : ℕ) : ℚ := if idx.getD t 0 = v then 1 else 0

/-- update_p_emission: entry [v, i] of the new emission matrix is
(sum over t with y_t = v of delta[t, i]) / (sum over t of delta[t, i]),
the transpose of the summed outer products of delta rows with the dirac
rows, divided rowwise by the delta column sums. -/
def update_p_emission (del : List (List ℚ)) (idx : List ℕ) (N K : ℕ) : List (List ℚ) :=
  (List.range K).map (fun v => (List.range N).map (fun i =>
    ((List.range idx.length).map (fun t => entM del t i * dirac idx t v)).sum
      / (del.map (fun r => r.getD i 0)).sum))

/-- One EM iteration (expectation followed by maximization) on the pair
(p_transition, p_emission), with n_hidden_states and
n_observation_classes derived from the shapes as in the constructor. -/
def emStep (idx : List ℕ) (p : List (List ℚ) × List (List ℚ)) :
    List (List ℚ) × List (List ℚ) :=
  let A := p.1
  let Bm := p.2
  let N := A.length - 1
  let K := Bm.length
  let Ablk := realBlock A N
  let pi0 := startColumn A N
  let al := calc_forward_probabilities Ablk Bm pi0 idx
  let be := calc_backward_probabilities Ablk Bm N idx
  let gam := calc_gamma A Bm al be idx N
  let del := calc_delta gam al
  (update_p_transition A gam del N, update_p_emission del idx N K)

/-- n_iterations repetitions of the EM iteration. -/
def emIter (idx : List ℕ) : ℕ → List (List ℚ) × List (List ℚ) →
    List (List ℚ) × List (List ℚ)
  | 0, p => p
  | n + 1, p => emStep idx (emIter idx n p)

/-- renumber_observations: observations - min(observations); the empty
list, on which the Python min function raises, gets minimum 0 by convention. -/
def renumber_observations (obs : List ℤ) : List ℕ :=
  obs.map (fun x => (x - obs.min?.getD 0).toNat)

/-- The assert of train (line 117): the number of distinct observation
labels, len(np.unique(observations)), must not exceed
n_observation_classes. -/
def trainRangeCheck (Bm : List (List ℚ)) (obs : List ℤ) : Bool :=
  obs.dedup.length ≤ Bm.length

/-- The assert of viterbi (line 296): len(set(observation_indices)) <=
n_observation_classes, with observation_indices the renumbered
observations. -/
def viterbiRangeCheck (Bm : List (List ℚ)) (obs : List ℤ) : Bool :=
  (renumber_observations obs).dedup.length ≤ Bm.length

/-- train: renumber, run the label-count assert, then n EM iterations;
the final parameter pair stands for the in-place mutated state. -/
def train (A Bm : List (List ℚ)) (obs : List ℤ) (n : ℕ) :
    Except HmmError (List (List ℚ) × List (List ℚ)) :=
  let idx := renumber_observations obs
  if trainRangeCheck Bm obs then Except.ok (emIter idx n (A, Bm))
  else Except.error HmmError.observationRange

/-- np.argmax of a 1-d array: the lowest index attaining the maximum. -/
def argmaxIdx : List ℚ → ℕ
  | [] => 0
  | x :: xs => if x < (xs.max?.getD x) then argmaxIdx xs + 1 else 0

/-- One viterbi time step: the candidate matrix
s[i, j] = t1[j, t-1] * p_transition[i, j] * p_emission[y_t, i], then its
rowwise maxima (the new score column) and rowwise argmaxima (the new
backpointer column). -/
def viterbiStep (Ablk Bm : List (List ℚ)) (k : ℕ) (prev : List ℚ) :
    List ℚ × List ℕ :=
  let s := (List.range Ablk.length).map (fun i =>
    (List.range Ablk.length).map (fun j => entV prev j * entM Ablk i j * entM Bm k i))
  (s.map (fun row => row.max?.getD 0), s.map argmaxIdx)

/-- Score and backpointer columns for times 1..T-1, given the score
column for time 0. -/
def viterbiAux (Ablk Bm : List (List ℚ)) (prev : List ℚ) : List ℕ →
    List (List ℚ) × List (List ℕ)
  | [] => ([], [])
  | k :: ks =>
      let sc := viterbiStep Ablk Bm k prev
      let rest := viterbiAux Ablk Bm sc.1 ks
      (sc.1 :: rest.1, sc.2 :: rest.2)

/-- Backtracking along the reversed backpointer columns, from the final
state; produces the reversed state sequence. -/
def backtrackAux : List (List ℕ) → ℕ → List ℕ
  | [], s => [s]
  | bp :: rest, s => s :: backtrackAux rest (bp.getD s 0)

/-- The dynamic program of viterbi after its assert: initial scores
t1[:, 0] = p_transition[:-1, -1] * p_emission[y_0, :], the recurrence,
argmax of the final column, and the backpointer walk. -/
def viterbiPath (A Bm : List (List ℚ)) (idx : List ℕ) : List ℕ :=
  let N := A.length - 1
  let Ablk := realBlock A N
  let r0 := vmul (startColumn A N) (Bm.getD (idx.getD 0 0) [])
  let tabs := viterbiAux Ablk Bm r0 (idx.drop 1)
  let scoreRows := r0 :: tabs.1
  let lastRow := scoreRows.getD (scoreRows.length - 1) []
  (backtrackAux tabs.2.reverse (argmaxIdx lastRow)).reverse

/-- viterbi: renumber the observations, run the distinct-count assert,
then decode. -/
def viterbi (A Bm : List (List ℚ)) (obs : List ℤ) : Except HmmError (List ℕ) :=
  if viterbiRangeCheck Bm obs then
    Except.ok (viterbiPath A Bm (renumber_observations obs))
  else Except.error HmmError.observationRange

/-- Broadcast read of a 1-d array against a longer partner, as numpy
does for shape (1,) against shape (n,). -/
def bcast (v : List ℚ) (i : ℕ) : ℚ := if v.length = 1 then v.getD 0 0 else v.getD i 0

/-- np.isclose with the default tolerances rtol = 1e-5, atol = 1e-8:
|a - b| <= atol + rtol * |b|. -/
def isCloseQ (a b : ℚ) : Bool :=
  decide (|a - b| ≤ 1 / 100000000 + 1 / 100000 * |b|)

/-- np.allclose of two 1-d arrays: a ValueError (shapeError) unless the
shapes are equal or one of them is (1,), else the broadcast elementwise
closeness check. -/
def np_allclose (a b : List ℚ) : Except HmmError Bool :=
  if a.length = b.length ∨ a.length = 1 ∨ b.length = 1 then
    Except.ok ((List.range (max a.length b.length)).all
      (fun i => isCloseQ (bcast a i) (bcast b i)))
  else Except.error HmmError.shapeError

/-- HMM.__init__: n_hidden_states = p_transition.shape[0] - 1, then the
two asserts: np.allclose(np.sum(p_emission, axis=0), np.ones(N)) and
np.allclose(np.sum(p_transition, axis=0), np.ones(N + 1)). -/
def hmm_init (pt pe : List (List ℚ)) : Except HmmError Unit := do
  let N := pt.length - 1
  let c1 ← np_allclose (colSums pe) (List.replicate N 1)
  if c1 then pure () else throw HmmError.invalidParameter
  let c2 ← np_allclose (colSums pt) (List.replicate (N + 1) 1)
  if c2 then pure () else throw HmmError.invalidParameter

/-! Concrete data.  The scenario of spec section 8: N = 2 hidden states,
K = 2 observation classes, observation sequence [0, 0, 1, 0]. -/

/-- The scenario transition matrix, column 2 = START, row 2 = STOP. -/
def transitionScenario : List (List ℚ) :=
  [[7/10, 3/10, 1/2], [3/10, 7/10, 1/2], [0, 0, 0]]

/-- The scenario emission matrix (rows = classes, columns = states). -/
def emissionScenario : List (List ℚ) := [[9/10, 2/10], [1/10, 8/10]]

/-- The scenario observation sequence as raw labels. -/
def obsScenario : List ℤ := [0, 0, 1, 0]

/-- The scenario observation sequence after renumbering. -/
def idxScenario : List ℕ := [0, 0, 1, 0]

/-- A valid parameter pair with an asymmetric transition block, used to
separate the two index orders of the forward and backward recurrences:
real block [[1/2, 1], [1/2, 0]], START column [1/2, 1/2]. -/
def transitionAsym : List (List ℚ) :=
  [[1/2, 1, 1/2], [1/2, 0, 1/2], [0, 0, 0]]

/-- A single-class emission matrix for the asymmetric example. -/
def emissionAsym : List (List ℚ) := [[1, 1]]

/-- Parameters with N = 1, K = 2 under which the observation sequence
[1, 0] has likelihood zero, so the time-0 normalizer vanishes. -/
def transitionDeg : List (List ℚ) := [[1, 1], [0, 0]]

/-- Emission matrix of the degenerate example: state 0 emits class 1
with probability 1. -/
def emissionDeg : List (List ℚ) := [[0], [1]]

/-- A single-column emission matrix (hidden-state dimension 1, not 2). -/
def emissionOneCol : List (List ℚ) := [[1/2], [1/2]]

/-- A three-column emission matrix (hidden-state dimension 3, not 2). -/
def emissionThreeCol : List (List ℚ) := [[1/2, 1/2, 0], [1/2, 1/2, 1]]

deriving instance DecidableEq for Except

/-- Forward table of the scenario. -/
def alScenario : List (List ℚ) :=
  calc_forward_probabilities (realBlock transitionScenario 2) emissionScenario
    (startColumn transitionScenario 2) idxScenario

/-- Backward table of the scenario. -/
def beScenario : List (List ℚ) :=
  calc_backward_probabilities (realBlock transitionScenario 2) emissionScenario 2 idxScenario

/-- Pairwise posterior of the scenario. -/
def gammaScenario : List (List (List ℚ)) :=
  calc_gamma transitionScenario emissionScenario alScenario beScenario idxScenario 2

/-- Marginal posterior of the scenario. -/
def deltaScenario : List (List ℚ) :=
  calc_delta gammaScenario alScenario

/-- The scenario parameters after one EM iteration. -/
def stepScenario : List (List ℚ) × List (List ℚ) :=
  emStep idxScenario (transitionScenario, emissionScenario)

/-- The scenario parameters after the five EM iterations of the spec. -/
def trainedScenario : List (List ℚ) × List (List ℚ) :=
  emIter idxScenario 5 (transitionScenario, emissionScenario)

/-- Column-sum diagnostics of a trained parameter pair for the N = 2,
K = 2 scenario, evaluated in one pass: transition real column 0 falls
short of 1 by more than 1e-7, real column 1 exceeds 1 by more than
1e-7, the START column still sums to 1, and both emission columns still
sum to 1. -/
def columnSumsReport (p : List (List ℚ) × List (List ℚ)) : Bool :=
  decide (1 - (entM p.1 0 0 + entM p.1 1 0) > 1/10000000)
  && decide ((entM p.1 0 1 + entM p.1 1 1) - 1 > 1/10000000)
  && decide (entM p.1 0 2 + entM p.1 1 2 = 1)
  && decide (entM p.2 0 0 + entM p.2 1 0 = 1)
  && decide (entM p.2 0 1 + entM p.2 1 1 = 1)

/-! Theorems.  Claim ids refer to the frozen claim list derived from the
design document.  First a layer of access lemmas for the array
operations, then the claim theorems. -/

theorem np_dot_eq_vmul_sum (xs ys : List ℚ) : np_dot xs ys = (vmul xs ys).sum := rfl

theorem vmul_length (xs ys : List ℚ) : (vmul xs ys).length = min xs.length ys.length := by
  unfold vmul
  exact List.length_zipWith _ xs ys

theorem vmul_getD (xs ys : List ℚ) (i : ℕ) (hx : i < xs.length) (hy : i < ys.length) :
    (vmul xs ys).getD i 0 = xs.getD i 0 * ys.getD i 0 := by
  have hlen : i < (vmul xs ys).length := by rw [vmul_length]; omega
  rw [List.getD_eq_getElem _ _ hlen, List.getD_eq_getElem _ _ hx, List.getD_eq_getElem _ _ hy]
  exact List.getElem_zipWith

theorem getD_range_map {α : Type} (f : ℕ → α) (n i : ℕ) (d : α) (h : i < n) :
    ((List.range n).map f).getD i d = f i := by
  have hlen : i < ((List.range n).map f).length := by simpa using h
  rw [List.getD_eq_getElem _ _ hlen, List.getElem_map, List.getElem_range]

theorem getD_map_getD {α β : Type} (f : α → β) (l : List α) (i : ℕ) (d : β) (e : α)
    (h : i < l.length) : (l.map f).getD i d = f (l.getD i e) := by
  have hlen : i < (l.map f).length := by simpa using h
  rw [List.getD_eq_getElem _ _ hlen, List.getElem_map, List.getD_eq_getElem _ _ h]

theorem getD_take {α : Type} (l : List α) (n i : ℕ) (d : α) (h : i < n) :
    (l.take n).getD i d = l.getD i d := by
  rw [List.getD_eq_getElem?_getD, List.getD_eq_getElem?_getD, List.getElem?_take, if_pos h]

theorem sum_range_map (f : ℕ → ℚ) (n : ℕ) :
    ((List.range n).map f).sum = ∑ j ∈ Finset.range n, f j := by
  induction n with
  | zero => simp
  | succ n ih =>
      rw [List.range_succ, List.map_append, List.sum_append, Finset.sum_range_succ, ih]
      simp

theorem sum_eq_sum_getD (l : List ℚ) : l.sum = ∑ j ∈ Finset.range l.length, l.getD j 0 := by
  induction l with
  | nil => simp
  | cons x t ih =>
      rw [List.sum_cons, List.length_cons, Finset.sum_range_succ']
      simp only [List.getD_cons_succ, List.getD_cons_zero]
      rw [← ih, add_comm]

theorem np_dot_eq_sum (xs ys : List ℚ) (n : ℕ) (hx : xs.length = n) (hy : ys.length = n) :
    np_dot xs ys = ∑ j ∈ Finset.range n, xs.getD j 0 * ys.getD j 0 := by
  induction xs generalizing ys n with
  | nil =>
      subst hx
      simp [np_dot]
  | cons x xt ih =>
      cases ys with
      | nil => rw [List.length_cons] at hx; rw [List.length_nil] at hy; omega
      | cons y yt =>
          subst hx
          rw [List.length_cons, np_dot, List.zipWith_cons_cons, List.sum_cons,
            Finset.sum_range_succ']
          simp only [List.getD_cons_succ, List.getD_cons_zero]
          rw [← np_dot, ih yt xt.length rfl (by simpa using hy), add_comm]

theorem np_matvec_length (m : List (List ℚ)) (v : List ℚ) :
    (np_matvec m v).length = m.length := by
  simp [np_matvec]

theorem np_matvec_getD (m : List (List ℚ)) (v : List ℚ) (i : ℕ) (h : i < m.length) :
    (np_matvec m v).getD i 0 = np_dot (m.getD i []) v :=
  getD_map_getD _ m i 0 [] h

theorem realBlock_length (A : List (List ℚ)) (N : ℕ) (h : N ≤ A.length) :
    (realBlock A N).length = N := by
  simp [realBlock]
  omega

theorem realBlock_getD (A : List (List ℚ)) (N i : ℕ) (hi : i < N) (hA : i < A.length) :
    (realBlock A N).getD i [] = (A.getD i []).take N := by
  unfold realBlock
  rw [getD_map_getD (fun r => r.take N) (A.take N) i [] [] (by rw [List.length_take]; omega),
    getD_take _ _ _ _ hi]

theorem entM_realBlock (A : List (List ℚ)) (N i j : ℕ) (hi : i < N) (hj : j < N)
    (hA : i < A.length) : entM (realBlock A N) i j = entM A i j := by
  unfold entM
  rw [realBlock_getD A N i hi hA, getD_take _ _ _ _ hj]

theorem realBlock_row_length (A : List (List ℚ)) (N i : ℕ) (hi : i < N) (hA : i < A.length)
    (hrow : (A.getD i []).length = N + 1) : ((realBlock A N).getD i []).length = N := by
  rw [realBlock_getD A N i hi hA, List.length_take, hrow]
  omega

theorem startColumn_length (A : List (List ℚ)) (N : ℕ) (h : N ≤ A.length) :
    (startColumn A N).length = N := by
  simp [startColumn]
  omega

theorem startColumn_getD (A : List (List ℚ)) (N i : ℕ) (hi : i < N) (hA : i < A.length) :
    (startColumn A N).getD i 0 = entM A i N := by
  unfold startColumn entM
  rw [getD_map_getD (fun r => r.getD N 0) (A.take N) i 0 [] (by rw [List.length_take]; omega),
    getD_take _ _ _ _ hi]

theorem forwardAux_length (Ablk Bm : List (List ℚ)) (ks : List ℕ) (prev : List ℚ) :
    (forwardAux Ablk Bm prev ks).length = ks.length := by
  induction ks generalizing prev with
  | nil => rfl
  | cons k ks ih => simp only [forwardAux, List.length_cons, ih]

theorem calc_forward_length (Ablk Bm : List (List ℚ)) (pi0 : List ℚ) (idx : List ℕ) :
    (calc_forward_probabilities Ablk Bm pi0 idx).length = idx.length := by
  cases idx with
  | nil => rfl
  | cons k ks =>
      simp only [calc_forward_probabilities, List.length_cons, forwardAux_length]

theorem forwardAux_rows (Ablk Bm : List (List ℚ)) (ks : List ℕ) :
    ∀ (prev : List ℚ) (t : ℕ), t < ks.length →
      (prev :: forwardAux Ablk Bm prev ks).getD (t + 1) []
        = vmul (Bm.getD (ks.getD t 0) [])
            (np_matvec Ablk ((prev :: forwardAux Ablk Bm prev ks).getD t [])) := by
  induction ks with
  | nil => intro prev t h; simp at h
  | cons k ks ih =>
      intro prev t h
      cases t with
      | zero => simp [forwardAux]
      | succ t =>
          have h2 : t < ks.length := by simpa using h
          have := ih (vmul (Bm.getD k []) (np_matvec Ablk prev)) t h2
          simpa [forwardAux, List.getD_cons_succ] using this

theorem calc_forward_getD_zero (Ablk Bm : List (List ℚ)) (pi0 : List ℚ) (k : ℕ) (ks : List ℕ) :
    (calc_forward_probabilities Ablk Bm pi0 (k :: ks)).getD 0 []
      = vmul pi0 (Bm.getD k []) := rfl

theorem calc_forward_getD_succ (Ablk Bm : List (List ℚ)) (pi0 : List ℚ) (idx : List ℕ)
    (t : ℕ) (h : t + 1 < idx.length) :
    (calc_forward_probabilities Ablk Bm pi0 idx).getD (t + 1) []
      = vmul (Bm.getD (idx.getD (t + 1) 0) [])
          (np_matvec Ablk ((calc_forward_probabilities Ablk Bm pi0 idx).getD t [])) := by
  cases idx with
  | nil => simp at h
  | cons k ks =>
      have := forwardAux_rows Ablk Bm ks (vmul pi0 (Bm.getD k [])) t (by simpa using h)
      simpa [calc_forward_probabilities, List.getD_cons_succ] using this

theorem forward_row_length (A Bm : List (List ℚ)) (idx : List ℕ) (N : ℕ)
    (hA : A.length = N + 1) (hrows : ∀ r ∈ A, r.length = N + 1)
    (hB : ∀ t < idx.length, (Bm.getD (idx.getD t 0) []).length = N) :
    ∀ t < idx.length,
      ((calc_forward_probabilities (realBlock A N) Bm (startColumn A N) idx).getD t []).length
        = N := by
  intro t ht
  cases t with
  | zero =>
      cases idx with
      | nil => simp at ht
      | cons k ks =>
          rw [calc_forward_getD_zero, vmul_length,
            startColumn_length A N (by omega)]
          have := hB 0 (by simp)
          simp only [List.getD_cons_zero] at this
          rw [this]
          omega
  | succ t =>
      rw [calc_forward_getD_succ _ _ _ _ t ht, vmul_length, np_matvec_length,
        realBlock_length A N (by omega), hB (t + 1) ht]
      omega

theorem backwardAux_length (Ablk Bm : List (List ℚ)) (N : ℕ) (ks : List ℕ) :
    (backwardAux Ablk Bm N ks).length = ks.length + 1 := by
  induction ks with
  | nil => rfl
  | cons k ks ih => simp only [backwardAux, List.length_cons, ih]

theorem backwardAux_last (Ablk Bm : List (List ℚ)) (N : ℕ) (ks : List ℕ) :
    (backwardAux Ablk Bm N ks).getD ks.length [] = List.replicate N 1 := by
  induction ks with
  | nil => rfl
  | cons k ks ih => simpa [backwardAux, List.getD_cons_succ] using ih

theorem backwardAux_getD (Ablk Bm : List (List ℚ)) (N : ℕ) (ks : List ℕ) :
    ∀ t < ks.length,
      (backwardAux Ablk Bm N ks).getD t []
        = backStep Ablk Bm (ks.getD t 0) ((backwardAux Ablk Bm N ks).getD (t + 1) []) := by
  induction ks with
  | nil => intro t h; simp at h
  | cons k ks ih =>
      intro t h
      cases t with
      | zero => simp [backwardAux]
      | succ t =>
          have h2 : t < ks.length := by simpa using h
          simpa [backwardAux, List.getD_cons_succ] using ih t h2

theorem backStep_length (Ablk Bm : List (List ℚ)) (k : ℕ) (next : List ℚ) :
    (backStep Ablk Bm k next).length = (Ablk.getD 0 []).length := by
  simp [backStep, np_transpose]

theorem realBlock_row0_length (A : List (List ℚ)) (N : ℕ) (hA : A.length = N + 1)
    (hrows : ∀ r ∈ A, r.length = N + 1) : ((realBlock A N).getD 0 []).length = N := by
  rcases Nat.eq_zero_or_pos N with h0 | hpos
  · subst h0
    simp [realBlock]
  · rw [realBlock_row_length A N 0 hpos (by omega) ?hrow]
    case hrow =>
      cases A with
      | nil => simp at hA
      | cons r rest => simpa using hrows r (by simp)

theorem backward_row_length (A Bm : List (List ℚ)) (idx : List ℕ) (N : ℕ)
    (hA : A.length = N + 1) (hrows : ∀ r ∈ A, r.length = N + 1) :
    ∀ t ≤ idx.length - 1,
      ((calc_backward_probabilities (realBlock A N) Bm N idx).getD t []).length = N := by
  intro t ht
  unfold calc_backward_probabilities
  have hdrop : (idx.drop 1).length = idx.length - 1 := by simp
  rcases Nat.lt_or_ge t (idx.drop 1).length with hlt | hge
  · rw [backwardAux_getD _ _ _ _ t hlt, backStep_length,
      realBlock_row0_length A N hA hrows]
  · have : t = (idx.drop 1).length := by omega
    rw [this, backwardAux_last]
    simp

theorem backStep_getD (Ablk Bm : List (List ℚ)) (k : ℕ) (next : List ℚ) (i N : ℕ)
    (hi : i < N) (h0 : (Ablk.getD 0 []).length = N) (hAlen : Ablk.length = N)
    (hnext : next.length = N) (hBk : (Bm.getD k []).length = N) :
    (backStep Ablk Bm k next).getD i 0
      = ∑ j ∈ Finset.range N,
          next.getD j 0 * (Bm.getD k []).getD j 0 * entM Ablk j i := by
  unfold backStep
  rw [getD_map_getD _ (np_transpose Ablk) i 0 []
    (by unfold np_transpose; simp only [List.length_map, List.length_range]; omega)]
  unfold np_transpose
  rw [h0, getD_range_map _ N i [] hi, ← np_dot_eq_vmul_sum,
    np_dot_eq_sum _ _ N (by rw [vmul_length, hnext, hBk]; omega) (by simp [hAlen])]
  refine Finset.sum_congr rfl (fun j hj => ?_)
  have hjN : j < N := Finset.mem_range.mp hj
  rw [vmul_getD next _ j (by omega) (by omega),
    getD_map_getD (fun r => r.getD i 0) Ablk j 0 [] (by omega)]
  rfl

unseal Rat.inv Rat.mul Rat.add Rat.sub in
/-- C1: update_p_transition writes the expected transition count out of
state 0 into state 1, divided by the expected time in state 0, into
entry [0, 1] of the updated matrix (row 0 = source), not into entry
[1, 0] (row 1 = destination) as the column-stochastic convention of the
data model requires; at the scenario parameters the two entries differ,
so the claimed equation A[j,i] = Σ γ[t,i,j] / Σ δ[t,i] fails at
i = 0, j = 1. -/
theorem claim_C1_update_transposed :
    entM stepScenario.1 0 1
      = ((gammaScenario.dropLast).map (fun sl => entM sl 0 1)).sum
        / ((deltaScenario.dropLast).map (fun r => r.getD 0 0)).sum
  ∧ entM stepScenario.1 1 0
      ≠ ((gammaScenario.dropLast).map (fun sl => entM sl 0 1)).sum
        / ((deltaScenario.dropLast).map (fun r => r.getD 0 0)).sum := by
  decide

set_option maxRecDepth 10000 in
set_option maxHeartbeats 4000000 in
unseal Rat.inv Rat.mul Rat.add Rat.sub in
/-- Evaluation of the column-sum diagnostics after the five scenario
training iterations. -/
theorem columnSumsReport_trained : columnSumsReport trainedScenario = true := by
  decide

/-- C2: after the five training iterations of the scenario, the two
real-state columns of the transition matrix do not sum to 1 within
tolerance 1e-7 (column 0 falls short and column 1 exceeds, each by more
than 1e-7), while the START column and both emission columns still sum
to 1 exactly. -/
theorem claim_C2_trained_columns :
    1 - (entM trainedScenario.1 0 0 + entM trainedScenario.1 1 0) > 1/10000000
  ∧ (entM trainedScenario.1 0 1 + entM trainedScenario.1 1 1) - 1 > 1/10000000
  ∧ entM trainedScenario.1 0 2 + entM trainedScenario.1 1 2 = 1
  ∧ entM trainedScenario.2 0 0 + entM trainedScenario.2 1 0 = 1
  ∧ entM trainedScenario.2 0 1 + entM trainedScenario.2 1 1 = 1 := by
  have h := columnSumsReport_trained
  simp only [columnSumsReport, Bool.and_eq_true, decide_eq_true_eq] at h
  exact ⟨h.1.1.1.1, h.1.1.1.2, h.1.1.2, h.1.2, h.2⟩

/-- C3, amended: for every index sequence, alpha[0, i] is the START
column entry A[i, N] times B[y_0, i], and for 1 <= t <= T-1,
alpha[t, i] = B[y_t, i] * Σ_j A[i, j] * alpha[t-1, j] (the claim wrote
A[j, i]; the code computes np.dot(A[:-1, :-1], alpha[t-1]), whose entry
i uses row i of A), using only the N x N real-state sub-block. -/
theorem claim_C3_forward (A Bm : List (List ℚ)) (idx : List ℕ) (N : ℕ)
    (hA : A.length = N + 1) (hrows : ∀ r ∈ A, r.length = N + 1)
    (hB : ∀ t < idx.length, (Bm.getD (idx.getD t 0) []).length = N)
    (al : List (List ℚ))
    (hal : al = calc_forward_probabilities (realBlock A N) Bm (startColumn A N) idx) :
    (∀ i < N, 0 < idx.length → entM al 0 i = entM A i N * entM Bm (idx.getD 0 0) i)
  ∧ (∀ t i, t + 1 < idx.length → i < N →
      entM al (t + 1) i
        = entM Bm (idx.getD (t + 1) 0) i
          * ∑ j ∈ Finset.range N, entM A i j * entM al t j) := by
  subst hal
  constructor
  · intro i hi hlen
    cases idx with
    | nil => simp at hlen
    | cons k ks =>
        unfold entM
        rw [calc_forward_getD_zero, List.getD_cons_zero,
          vmul_getD _ _ i (by rw [startColumn_length A N (by omega)]; omega)
            (by have h0 := hB 0 (by simp); simp only [List.getD_cons_zero] at h0; omega),
          startColumn_getD A N i hi (by omega)]
        rfl
  · intro t i ht hi
    have hrowlen := forward_row_length A Bm idx N hA hrows hB t (by omega)
    have hBlen := hB (t + 1) ht
    have hrowA : (A.getD i []).length = N + 1 := by
      rw [List.getD_eq_getElem A [] (show i < A.length by omega)]
      exact hrows _ (List.getElem_mem _)
    unfold entM
    rw [calc_forward_getD_succ _ _ _ _ t ht,
      vmul_getD _ _ i (by omega)
        (by rw [np_matvec_length, realBlock_length A N (by omega)]; omega),
      np_matvec_getD _ _ i (by rw [realBlock_length A N (by omega)]; omega),
      realBlock_getD A N i hi (by omega),
      np_dot_eq_sum _ _ N (by rw [List.length_take, hrowA]; omega) hrowlen]
    refine congrArg _ (Finset.sum_congr rfl (fun j hj => ?_))
    have hjN : j < N := Finset.mem_range.mp hj
    rw [getD_take _ _ _ _ hjN]

/-- Witness for the amended C3 at the scenario parameters. -/
theorem claim_C3_witness :
    (transitionScenario.length = 2 + 1
      ∧ (∀ r ∈ transitionScenario, r.length = 2 + 1)
      ∧ (∀ t < idxScenario.length,
          (emissionScenario.getD (idxScenario.getD t 0) []).length = 2)
      ∧ alScenario
          = calc_forward_probabilities (realBlock transitionScenario 2) emissionScenario
              (startColumn transitionScenario 2) idxScenario)
  ∧ ((∀ i < 2, 0 < idxScenario.length →
        entM alScenario 0 i
          = entM transitionScenario i 2 * entM emissionScenario (idxScenario.getD 0 0) i)
    ∧ (∀ t i, t + 1 < idxScenario.length → i < 2 →
        entM alScenario (t + 1) i
          = entM emissionScenario (idxScenario.getD (t + 1) 0) i
            * ∑ j ∈ Finset.range 2, entM transitionScenario i j * entM alScenario t j)) :=
  ⟨⟨by decide, by decide, by decide, rfl⟩,
    claim_C3_forward transitionScenario emissionScenario idxScenario 2
      (by decide) (by decide) (by decide) alScenario rfl⟩

unseal Rat.inv Rat.mul Rat.add Rat.sub in
/-- C3, counterexample: with the asymmetric parameters and the index
sequence [0, 0], the forward entry alpha[1, 0] computed by the code
differs from the value B[y_1, 0] * Σ_j A[j, 0] * alpha[0, j] that the
claim asserts (the code sums A[0, j] * alpha[0, j] instead). -/
theorem claim_C3_counterexample :
    entM (calc_forward_probabilities (realBlock transitionAsym 2) emissionAsym
        (startColumn transitionAsym 2) [0, 0]) 1 0
      ≠ entM emissionAsym 0 0 * ∑ j ∈ Finset.range 2, entM transitionAsym j 0
          * entM (calc_forward_probabilities (realBlock transitionAsym 2) emissionAsym
              (startColumn transitionAsym 2) [0, 0]) 0 j := by
  decide

/-- C4, amended: beta[T-1, i] = 1 for all i, and for t from T-2 down to
0, beta[t, i] = Σ_j beta[t+1, j] * A[j, i] * B[y_{t+1}, j] (the claim
wrote A[i, j]; the code multiplies by the transpose of the real-state
block, so entry [j, i] of A pairs with successor state j), restricted
to the N x N real-state sub-block. -/
theorem claim_C4_backward (A Bm : List (List ℚ)) (idx : List ℕ) (N : ℕ)
    (hA : A.length = N + 1) (hrows : ∀ r ∈ A, r.length = N + 1)
    (hB : ∀ t < idx.length, (Bm.getD (idx.getD t 0) []).length = N)
    (be : List (List ℚ))
    (hbe : be = calc_backward_probabilities (realBlock A N) Bm N idx) :
    (∀ i < N, entM be (idx.length - 1) i = 1)
  ∧ (∀ t i, t + 1 < idx.length → i < N →
      entM be t i
        = ∑ j ∈ Finset.range N,
            entM be (t + 1) j * entM A j i * entM Bm (idx.getD (t + 1) 0) j) := by
  subst hbe
  have hdrop : (idx.drop 1).length = idx.length - 1 := by simp
  constructor
  · intro i hi
    unfold entM calc_backward_probabilities
    rw [← hdrop, backwardAux_last,
      List.getD_eq_getElem _ _ (by rw [List.length_replicate]; omega),
      List.getElem_replicate]
  · intro t i ht hi
    have hnext := backward_row_length A Bm idx N hA hrows (t + 1) (by omega)
    have hks : (idx.drop 1).getD t 0 = idx.getD (t + 1) 0 := by
      rw [List.getD_eq_getElem?_getD, List.getD_eq_getElem?_getD, List.getElem?_drop,
        Nat.add_comm 1 t]
    have hBlen := hB (t + 1) ht
    unfold entM calc_backward_probabilities at hnext ⊢
    rw [backwardAux_getD _ _ _ _ t (by omega), hks,
      backStep_getD _ _ _ _ i N hi (realBlock_row0_length A N hA hrows)
        (realBlock_length A N (by omega)) hnext hBlen]
    refine Finset.sum_congr rfl (fun j hj => ?_)
    have hjN : j < N := Finset.mem_range.mp hj
    rw [entM_realBlock A N j i hjN hi (by omega)]
    unfold entM
    ring

/-- Witness for the amended C4 at the scenario parameters. -/
theorem claim_C4_witness :
    (transitionScenario.length = 2 + 1
      ∧ (∀ r ∈ transitionScenario, r.length = 2 + 1)
      ∧ (∀ t < idxScenario.length,
          (emissionScenario.getD (idxScenario.getD t 0) []).length = 2)
      ∧ beScenario
          = calc_backward_probabilities (realBlock transitionScenario 2) emissionScenario 2
              idxScenario)
  ∧ ((∀ i < 2, entM beScenario (idxScenario.length - 1) i = 1)
    ∧ (∀ t i, t + 1 < idxScenario.length → i < 2 →
        entM beScenario t i
          = ∑ j ∈ Finset.range 2,
              entM beScenario (t + 1) j * entM transitionScenario j i
                * entM emissionScenario (idxScenario.getD (t + 1) 0) j)) :=
  ⟨⟨by decide, by decide, by decide, rfl⟩,
    claim_C4_backward transitionScenario emissionScenario idxScenario 2
      (by decide) (by decide) (by decide) beScenario rfl⟩

unseal Rat.inv Rat.mul Rat.add Rat.sub in
/-- C4, counterexample: with the asymmetric parameters and the index
sequence [0, 0], the backward entry beta[0, 0] computed by the code
differs from the value Σ_j beta[1, j] * A[0, j] * B[y_1, j] that the
claim asserts (the code sums beta[1, j] * A[j, 0] * B[y_1, j]). -/
theorem claim_C4_counterexample :
    entM (calc_backward_probabilities (realBlock transitionAsym 2) emissionAsym 2 [0, 0]) 0 0
      ≠ ∑ j ∈ Finset.range 2,
          entM (calc_backward_probabilities (realBlock transitionAsym 2) emissionAsym 2 [0, 0]) 1 j
            * entM transitionAsym 0 j * entM emissionAsym 0 j := by
  decide

theorem calc_gamma_length (A Bm al be : List (List ℚ)) (idx : List ℕ) (N : ℕ) :
    (calc_gamma A Bm al be idx N).length = (idx.length - 1) + 1 := by
  simp [calc_gamma]

theorem calc_gamma_getD (A Bm al be : List (List ℚ)) (idx : List ℕ) (N t : ℕ)
    (ht : t < idx.length - 1) :
    (calc_gamma A Bm al be idx N).getD t []
      = (gammaSliceRaw A Bm al be idx N t).map
          (fun row => row.map (fun x => x / np_dot (al.getD t []) (be.getD t []))) := by
  unfold calc_gamma
  rw [List.getD_append _ _ _ t (by simpa using ht), getD_range_map _ _ t [] ht]

theorem entT_calc_gamma (A Bm al be : List (List ℚ)) (idx : List ℕ) (N t i j : ℕ)
    (ht : t < idx.length - 1) (hi : i < N) (hj : j < N) :
    entT (calc_gamma A Bm al be idx N) t i j
      = entM al t i * entM A j i * entM be (t + 1) j * entM Bm (idx.getD (t + 1) 0) j
        / np_dot (al.getD t []) (be.getD t []) := by
  unfold entT
  rw [calc_gamma_getD A Bm al be idx N t ht,
    getD_map_getD _ _ i [] []
      (by unfold gammaSliceRaw; simp only [List.length_map, List.length_range]; omega)]
  unfold gammaSliceRaw
  rw [getD_range_map _ N i [] hi,
    getD_map_getD _ _ j 0 0 (by simp only [List.length_map, List.length_range]; omega),
    getD_range_map _ N j 0 hj]

theorem calc_delta_getD (gam : List (List (List ℚ))) (al : List (List ℚ)) (t : ℕ)
    (ht : t < gam.length - 1) :
    (calc_delta gam al).getD t [] = (gam.getD t []).map (fun row => row.sum) := by
  simp only [calc_delta]
  rw [List.getD_append _ _ _ t (by simp only [List.length_dropLast, List.length_map]; omega),
    List.getD_eq_getElem?_getD, List.getElem?_dropLast,
    if_pos (by simp only [List.length_map]; omega), ← List.getD_eq_getElem?_getD,
    getD_map_getD _ gam t [] [] (by omega)]

theorem calc_delta_last (gam : List (List (List ℚ))) (al : List (List ℚ)) :
    (calc_delta gam al).getD (gam.length - 1) []
      = (al.getD (al.length - 1) []).map
          (fun x => x / (al.getD (al.length - 1) []).sum) := by
  simp only [calc_delta]
  rw [List.getD_append_right _ _ _ _
    (by simp only [List.length_dropLast, List.length_map]; omega)]
  simp only [List.length_dropLast, List.length_map]
  rw [Nat.sub_self (gam.length - 1)]
  rfl

/-- C5: the posterior step.  gamma[t, i, j] for t <= T-2 is
alpha[t, i] * A[j, i] * beta[t+1, j] * B[y_{t+1}, j] divided by the
scalar Σ_k alpha[t, k] * beta[t, k]; delta[t, i] = Σ_j gamma[t, i, j]
for t <= T-2; and delta[T-1, i] = alpha[T-1, i] / Σ_k alpha[T-1, k]. -/
theorem claim_C5_posteriors (A Bm : List (List ℚ)) (idx : List ℕ) (N : ℕ)
    (hA : A.length = N + 1) (hrows : ∀ r ∈ A, r.length = N + 1)
    (hB : ∀ t < idx.length, (Bm.getD (idx.getD t 0) []).length = N)
    (hT : 2 ≤ idx.length)
    (al be : List (List ℚ)) (gam : List (List (List ℚ))) (del : List (List ℚ))
    (hal : al = calc_forward_probabilities (realBlock A N) Bm (startColumn A N) idx)
    (hbe : be = calc_backward_probabilities (realBlock A N) Bm N idx)
    (hgam : gam = calc_gamma A Bm al be idx N)
    (hdel : del = calc_delta gam al) :
    (∀ t i j, t + 1 < idx.length → i < N → j < N →
      entT gam t i j
        = entM al t i * entM A j i * entM be (t + 1) j * entM Bm (idx.getD (t + 1) 0) j
          / ∑ k ∈ Finset.range N, entM al t k * entM be t k)
  ∧ (∀ t i, t + 1 < idx.length → i < N →
      entM del t i = ∑ j ∈ Finset.range N, entT gam t i j)
  ∧ (∀ i < N, entM del (idx.length - 1) i
      = entM al (idx.length - 1) i / ∑ k ∈ Finset.range N, entM al (idx.length - 1) k) := by
  have hdenom : ∀ t, t + 1 < idx.length →
      np_dot (al.getD t []) (be.getD t [])
        = ∑ k ∈ Finset.range N, entM al t k * entM be t k := by
    intro t ht
    rw [hal, hbe]
    exact np_dot_eq_sum _ _ N
      (forward_row_length A Bm idx N hA hrows hB t (by omega))
      (backward_row_length A Bm idx N hA hrows t (by omega))
  have hgamlen : gam.length = idx.length := by
    rw [hgam, calc_gamma_length]
    omega
  have hone : ∀ t i j, t + 1 < idx.length → i < N → j < N →
      entT gam t i j
        = entM al t i * entM A j i * entM be (t + 1) j * entM Bm (idx.getD (t + 1) 0) j
          / np_dot (al.getD t []) (be.getD t []) := by
    intro t i j ht hi hj
    rw [hgam]
    exact entT_calc_gamma A Bm al be idx N t i j (by omega) hi hj
  refine ⟨fun t i j ht hi hj => ?_, fun t i ht hi => ?_, fun i hi => ?_⟩
  · rw [hone t i j ht hi hj, hdenom t ht]
  · have hslice : (gam.getD t []).length = N := by
      rw [hgam, calc_gamma_getD A Bm al be idx N t (by omega)]
      unfold gammaSliceRaw
      simp only [List.length_map, List.length_range]
    unfold entM
    rw [hdel, calc_delta_getD gam al t (by omega),
      getD_map_getD _ _ i 0 [] (by omega)]
    have hrow : gam.getD t [] = (gammaSliceRaw A Bm al be idx N t).map
        (fun row => row.map (fun x => x / np_dot (al.getD t []) (be.getD t []))) := by
      rw [hgam]
      exact calc_gamma_getD A Bm al be idx N t (by omega)
    rw [hrow]
    unfold gammaSliceRaw
    rw [getD_map_getD _ _ i [] [] (by simp only [List.length_map, List.length_range]; omega),
      getD_range_map _ N i [] hi, List.map_map, sum_range_map]
    refine Finset.sum_congr rfl (fun j hj => ?_)
    have hjN : j < N := Finset.mem_range.mp hj
    rw [hone t i j ht hi hjN]
    rfl
  · have hallen : al.length = idx.length := by
      rw [hal, calc_forward_length]
    have hrowlen : (al.getD (al.length - 1) []).length = N := by
      rw [hal]
      rw [hal] at hallen
      rw [hallen]
      exact forward_row_length A Bm idx N hA hrows hB (idx.length - 1) (by omega)
    have hidx : idx.length - 1 = gam.length - 1 := by
      rw [hgamlen]
    unfold entM
    rw [hdel, hidx, calc_delta_last gam al,
      getD_map_getD _ _ i 0 0 (by omega),
      sum_eq_sum_getD (al.getD (al.length - 1) []), hrowlen, hallen, hidx]

/-- Witness for C5 at the scenario parameters. -/
theorem claim_C5_witness :
    (transitionScenario.length = 2 + 1
      ∧ (∀ r ∈ transitionScenario, r.length = 2 + 1)
      ∧ (∀ t < idxScenario.length,
          (emissionScenario.getD (idxScenario.getD t 0) []).length = 2)
      ∧ 2 ≤ idxScenario.length
      ∧ gammaScenario
          = calc_gamma transitionScenario emissionScenario alScenario beScenario idxScenario 2
      ∧ deltaScenario = calc_delta gammaScenario alScenario)
  ∧ ((∀ t i j, t + 1 < idxScenario.length → i < 2 → j < 2 →
      entT gammaScenario t i j
        = entM alScenario t i * entM transitionScenario j i * entM beScenario (t + 1) j
            * entM emissionScenario (idxScenario.getD (t + 1) 0) j
          / ∑ k ∈ Finset.range 2, entM alScenario t k * entM beScenario t k)
    ∧ (∀ t i, t + 1 < idxScenario.length → i < 2 →
        entM deltaScenario t i = ∑ j ∈ Finset.range 2, entT gammaScenario t i j)
    ∧ (∀ i < 2, entM deltaScenario (idxScenario.length - 1) i
        = entM alScenario (idxScenario.length - 1) i
          / ∑ k ∈ Finset.range 2, entM alScenario (idxScenario.length - 1) k)) :=
  ⟨⟨by decide, by decide, by decide, by decide, rfl, rfl⟩,
    claim_C5_posteriors transitionScenario emissionScenario idxScenario 2
      (by decide) (by decide) (by decide) (by decide)
      alScenario beScenario gammaScenario deltaScenario rfl rfl rfl rfl⟩

unseal Rat.inv Rat.mul Rat.add Rat.sub in
/-- C6, counterexample: the observation sequence [0, 2] has
min-subtracted index range 2, exceeding K - 1 = 1 for the scenario
model, yet both observation checks pass (they count distinct values,
and [0, 2] has only 2 of them), so neither entry point fails with the
range error: training would fail only later, inside the table
computation, at the out-of-range emission row index 2. -/
theorem claim_C6_counterexample :
    (renumber_observations [0, 2]).max?.getD 0 = 2
  ∧ emissionScenario.length = 2
  ∧ trainRangeCheck emissionScenario [0, 2] = true
  ∧ viterbiRangeCheck emissionScenario [0, 2] = true
  ∧ train transitionScenario emissionScenario [0, 2] 1
      ≠ Except.error HmmError.observationRange
  ∧ viterbi transitionScenario emissionScenario [0, 2]
      ≠ Except.error HmmError.observationRange
  ∧ (renumber_observations [0, 2]).any (fun k => emissionScenario.length ≤ k) = true := by
  decide

theorem dedup_length_renumber (obs : List ℤ) :
    (renumber_observations obs).dedup.length = obs.dedup.length := by
  rw [← List.card_toFinset, ← List.card_toFinset]
  unfold renumber_observations
  rw [show (obs.map (fun x => (x - obs.min?.getD 0).toNat)).toFinset
      = obs.toFinset.image (fun x => (x - obs.min?.getD 0).toNat) from by ext x; simp]
  apply Finset.card_image_of_injOn
  intro x hx y hy hxy
  have hxm : x ∈ obs := List.mem_toFinset.mp hx
  have hym : y ∈ obs := List.mem_toFinset.mp hy
  rcases hmin : obs.min? with _ | m
  · rw [List.min?_eq_none_iff] at hmin
    subst hmin
    simp at hxm
  · have hiff := @List.min?_eq_some_iff ℤ m _ _ ⟨fun h1 h2 => le_antisymm h1 h2⟩
      (fun a : ℤ => le_refl a) (fun a b => min_choice a b) (fun a b c => le_min_iff)
    have hmx : m ≤ x := ((hiff.mp hmin).2) x hxm
    have hmy : m ≤ y := ((hiff.mp hmin).2) y hym
    rw [hmin] at hxy
    simp only [Option.getD_some] at hxy
    omega

/-- C6, amended: the two entry-point checks compare the number of
distinct observation values against K (not the min-subtracted index
range), so whenever the sequence has more distinct values than K both
train and viterbi fail with the range error at the check, before any
table computation; a gapped sequence whose index range exceeds K - 1
but with at most K distinct values passes both checks. -/
theorem claim_C6_checks (A Bm : List (List ℚ)) (obs : List ℤ) (n : ℕ)
    (h : Bm.length < obs.dedup.length) :
    train A Bm obs n = Except.error HmmError.observationRange
  ∧ viterbi A Bm obs = Except.error HmmError.observationRange := by
  have ht : trainRangeCheck Bm obs = false := by
    unfold trainRangeCheck
    simp only [decide_eq_false_iff_not]
    omega
  have hv : viterbiRangeCheck Bm obs = false := by
    unfold viterbiRangeCheck
    simp only [decide_eq_false_iff_not]
    rw [dedup_length_renumber]
    omega
  constructor
  · simp [train, ht]
  · simp [viterbi, hv]

/-- Witness for the amended C6: three distinct labels against K = 2. -/
theorem claim_C6_witness :
    emissionScenario.length < ([1, 2, 3] : List ℤ).dedup.length
  ∧ (train transitionScenario emissionScenario [1, 2, 3] 1
      = Except.error HmmError.observationRange
    ∧ viterbi transitionScenario emissionScenario [1, 2, 3]
      = Except.error HmmError.observationRange) :=
  ⟨by decide,
    claim_C6_checks transitionScenario emissionScenario [1, 2, 3] 1 (by decide)⟩

/-- C7, amended: the code contains no degenerate-normalizer check at
all: train can only fail at the distinct-count assert, never with the
degenerate normalizer error; a zero normalizer flows into the division
(NaN and infinities in floating point, the total division by zero of
the exact model here). -/
theorem claim_C7_never_degenerate (A Bm : List (List ℚ)) (obs : List ℤ) (n : ℕ) :
    train A Bm obs n ≠ Except.error HmmError.degenerateNormalizer := by
  unfold train
  split
  · simp
  · simp

unseal Rat.inv Rat.mul Rat.add Rat.sub in
/-- C7, counterexample: under the degenerate parameters the sequence
[1, 0] has likelihood zero, the time-0 normalizer np.dot(alpha[0],
beta[0]) is zero, yet train completes normally (returning the values
the zero division produced) instead of failing with the degenerate
normalizer error. -/
theorem claim_C7_counterexample :
    np_dot ((calc_forward_probabilities (realBlock transitionDeg 1) emissionDeg
        (startColumn transitionDeg 1) [1, 0]).getD 0 [])
      ((calc_backward_probabilities (realBlock transitionDeg 1) emissionDeg 1 [1, 0]).getD 0 [])
      = 0
  ∧ train transitionDeg emissionDeg [1, 0] 1 = Except.ok ([[0, 0], [0, 0]], [[0], [0]])
  ∧ train transitionDeg emissionDeg [1, 0] 1 ≠ Except.error HmmError.degenerateNormalizer := by
  decide

/-- C8, amended: construction fails with the broadcast shape error
exactly in the cases where numpy cannot broadcast the emission
column-sum vector (length M) against np.ones(N): when M differs from N
and neither M nor N is 1.  With a broadcastable mismatch (such as a
single-column emission matrix whose column sums to 1 against N = 2)
construction succeeds despite the disagreeing dimensions. -/
theorem claim_C8_shape_check (pt pe : List (List ℚ)) (M N : ℕ)
    (hN : pt.length = N + 1) (hpe : pe ≠ []) (hrows : ∀ r ∈ pe, r.length = M)
    (hMN : M ≠ N) (hM1 : M ≠ 1) (hN1 : N ≠ 1) :
    hmm_init pt pe = Except.error HmmError.shapeError := by
  have hM : (colSums pe).length = M := by
    cases pe with
    | nil => exact absurd rfl hpe
    | cons r rest =>
        unfold colSums
        simp only [List.length_map, List.length_range, List.getD_cons_zero]
        exact hrows r (by simp)
  have hna : np_allclose (colSums pe) (List.replicate (pt.length - 1) (1 : ℚ))
      = Except.error HmmError.shapeError := by
    unfold np_allclose
    rw [if_neg]
    rw [hM, List.length_replicate, hN]
    omega
  simp only [hmm_init]
  rw [hna]
  rfl

/-- Witness for the amended C8: a 2 x 3 emission matrix against the
N = 2 transition matrix produces the broadcast shape error. -/
theorem claim_C8_witness :
    (transitionScenario.length = 2 + 1
      ∧ emissionThreeCol ≠ []
      ∧ (∀ r ∈ emissionThreeCol, r.length = 3)
      ∧ (3 : ℕ) ≠ 2 ∧ (3 : ℕ) ≠ 1 ∧ (2 : ℕ) ≠ 1)
  ∧ hmm_init transitionScenario emissionThreeCol = Except.error HmmError.shapeError :=
  ⟨⟨by decide, by decide, by decide, by decide, by decide, by decide⟩,
    claim_C8_shape_check transitionScenario emissionThreeCol 3 2
      (by decide) (by decide) (by decide) (by decide) (by decide) (by decide)⟩

unseal Rat.inv Rat.mul Rat.add Rat.sub in
/-- C8, counterexample: an emission matrix with a single column (hidden
state dimension 1) against a transition matrix for N = 2: the
dimensions disagree, yet construction succeeds, because numpy
broadcasts the length-1 column-sum vector against np.ones(2) and the
single column sums to 1. -/
theorem claim_C8_counterexample :
    (emissionOneCol.getD 0 []).length ≠ transitionScenario.length - 1
  ∧ hmm_init transitionScenario emissionOneCol = Except.ok () := by
  decide

theorem argmax_spec (xs : List ℚ) (h : xs ≠ []) :
    xs.max? = some (xs.getD (argmaxIdx xs) 0)
  ∧ argmaxIdx xs < xs.length
  ∧ (∀ j < xs.length, xs.getD j 0 ≤ xs.getD (argmaxIdx xs) 0)
  ∧ (∀ j < argmaxIdx xs, xs.getD j 0 < xs.getD (argmaxIdx xs) 0) := by
  have hiff : ∀ (a : ℚ) (l : List ℚ), l.max? = some a ↔ a ∈ l ∧ ∀ b ∈ l, b ≤ a :=
    fun a l => @List.max?_eq_some_iff ℚ a _ _ ⟨fun h1 h2 => le_antisymm h1 h2⟩
      (fun x => le_refl x) (fun x y => max_choice x y) (fun x y z => max_le_iff) l
  induction xs with
  | nil => exact absurd rfl h
  | cons x t ih =>
      cases t with
      | nil =>
          have ha : argmaxIdx [x] = 0 := by simp [argmaxIdx]
          refine ⟨?_, by simp [ha], ?_, ?_⟩
          · rw [ha]
            rfl
          · intro j hj
            have hj0 : j = 0 := by simpa using hj
            subst hj0
            rw [ha]
          · intro j hj
            rw [ha] at hj
            exact absurd hj (Nat.not_lt_zero j)
      | cons y s =>
          obtain ⟨hmax, hlt, hle, hstrict⟩ := ih (by simp)
          have hm := (hiff _ _).mp hmax
          have hdef : argmaxIdx (x :: y :: s)
              = if x < ((y :: s).max?.getD x) then argmaxIdx (y :: s) + 1 else 0 := rfl
          rw [hmax, Option.getD_some] at hdef
          rcases lt_or_ge x ((y :: s).getD (argmaxIdx (y :: s)) 0) with hx | hx
          · rw [hdef, if_pos hx]
            have hval : (x :: y :: s).getD (argmaxIdx (y :: s) + 1) 0
                = (y :: s).getD (argmaxIdx (y :: s)) 0 := List.getD_cons_succ
            rw [hval]
            refine ⟨(hiff _ _).mpr ⟨List.mem_cons_of_mem x hm.1, ?_⟩, by simpa using hlt,
              ?_, ?_⟩
            · intro b hb
              rcases List.mem_cons.mp hb with hb | hb
              · exact hb ▸ le_of_lt hx
              · exact hm.2 b hb
            · intro j hj
              cases j with
              | zero => exact le_of_lt hx
              | succ j =>
                  rw [List.getD_cons_succ]
                  exact hle j (by simpa using hj)
            · intro j hj
              cases j with
              | zero => exact hx
              | succ j =>
                  rw [List.getD_cons_succ]
                  exact hstrict j (by omega)
          · rw [hdef, if_neg (not_lt.mpr hx)]
            refine ⟨(hiff _ _).mpr ⟨List.mem_cons_self x (y :: s), ?_⟩, by simp, ?_, ?_⟩
            · intro b hb
              rcases List.mem_cons.mp hb with hb | hb
              · exact le_of_eq hb
              · exact le_trans (hm.2 b hb) hx
            · intro j hj
              cases j with
              | zero => exact le_refl x
              | succ j =>
                  rw [List.getD_cons_succ, List.getD_cons_zero]
                  exact le_trans (hle j (by simpa using hj)) hx
            · intro j hj
              exact absurd hj (Nat.not_lt_zero j)

unseal Rat.inv Rat.mul Rat.add Rat.sub in
/-- C9, counterexample: decoding the length-1 sequence [1] returns
state 0, because the single observation is renumbered to index 0 and
scored against emission row 0; the claimed value
argmax_i(pi_i * B[y_0, i]) with y_0 = 1 is state 1. -/
theorem claim_C9_counterexample :
    viterbi transitionScenario emissionScenario [1]
      ≠ Except.ok [argmaxIdx (vmul (startColumn transitionScenario 2)
          (emissionScenario.getD 1 []))]
  ∧ viterbi transitionScenario emissionScenario [1] = Except.ok [0]
  ∧ argmaxIdx (vmul (startColumn transitionScenario 2) (emissionScenario.getD 1 [])) = 1 := by
  decide

/-- C9, amended: decoding any length-1 sequence [y_0] returns the
single-element path [argmax_i(pi_i * B[0, i])], ties broken by the
lowest state index: the single observation is renumbered to index 0 by
min-subtraction, so emission row 0 is used regardless of the raw
label y_0 (the claim wrote B[y_0, i]). -/
theorem claim_C9_length_one (A Bm : List (List ℚ)) (y : ℤ) (hB : Bm ≠ [])
    (v : List ℚ) (hv : v = vmul (startColumn A (A.length - 1)) (Bm.getD 0 [])) :
    viterbi A Bm [y] = Except.ok [argmaxIdx v]
  ∧ (∀ j < v.length, entV v j ≤ entV v (argmaxIdx v))
  ∧ (∀ j < argmaxIdx v, entV v j < entV v (argmaxIdx v)) := by
  have hren : renumber_observations [y] = [0] := by
    unfold renumber_observations
    show [(y - ((some y).getD 0)).toNat] = [0]
    simp
  have hargmax : (∀ j < v.length, entV v j ≤ entV v (argmaxIdx v))
      ∧ ∀ j < argmaxIdx v, entV v j < entV v (argmaxIdx v) := by
    rcases eq_or_ne v [] with hnil | hne
    · subst hnil
      exact ⟨fun j hj => absurd hj (by simp), fun j hj => absurd hj (by simp [argmaxIdx])⟩
    · obtain ⟨_, _, hle, hstrict⟩ := argmax_spec v hne
      exact ⟨hle, hstrict⟩
  refine ⟨?_, hargmax.1, hargmax.2⟩
  have hcheck : viterbiRangeCheck Bm [y] = true := by
    unfold viterbiRangeCheck
    rw [hren, decide_eq_true_eq]
    show 1 ≤ Bm.length
    exact Nat.succ_le_of_lt (List.length_pos.mpr hB)
  unfold viterbi
  rw [hcheck, hren, if_pos rfl, hv]
  rfl

/-- Witness for the amended C9: decoding [5] at the scenario model. -/
theorem claim_C9_witness :
    (emissionScenario ≠ []
      ∧ vmul (startColumn transitionScenario (transitionScenario.length - 1))
          (emissionScenario.getD 0 [])
        = vmul (startColumn transitionScenario (transitionScenario.length - 1))
            (emissionScenario.getD 0 []))
  ∧ (viterbi transitionScenario emissionScenario [5]
      = Except.ok [argmaxIdx
          (vmul (startColumn transitionScenario (transitionScenario.length - 1))
            (emissionScenario.getD 0 []))]
    ∧ (∀ j < (vmul (startColumn transitionScenario (transitionScenario.length - 1))
          (emissionScenario.getD 0 [])).length,
        entV (vmul (startColumn transitionScenario (transitionScenario.length - 1))
            (emissionScenario.getD 0 [])) j
          ≤ entV (vmul (startColumn transitionScenario (transitionScenario.length - 1))
              (emissionScenario.getD 0 []))
            (argmaxIdx (vmul (startColumn transitionScenario (transitionScenario.length - 1))
              (emissionScenario.getD 0 []))))
    ∧ (∀ j < argmaxIdx (vmul (startColumn transitionScenario
          (transitionScenario.length - 1)) (emissionScenario.getD 0 [])),
        entV (vmul (startColumn transitionScenario (transitionScenario.length - 1))
            (emissionScenario.getD 0 [])) j
          < entV (vmul (startColumn transitionScenario (transitionScenario.length - 1))
              (emissionScenario.getD 0 []))
            (argmaxIdx (vmul (startColumn transitionScenario
              (transitionScenario.length - 1)) (emissionScenario.getD 0 []))))) :=
  ⟨⟨by decide, rfl⟩,
    claim_C9_length_one transitionScenario emissionScenario 5 (by decide) _ rfl⟩

/-- C10, amended: the distinct-values check inside the decoder is a
real check, not a discarded comparison: Python parses the assert as
covering the whole comparison, so the check passes exactly when the
sequence has at most K distinct values (renumbering preserves the
distinct count), and fails with the range error otherwise. -/
theorem claim_C10_check_characterised (Bm : List (List ℚ)) (obs : List ℤ) :
    viterbiRangeCheck Bm obs = true ↔ obs.dedup.length ≤ Bm.length := by
  unfold viterbiRangeCheck
  rw [dedup_length_renumber, decide_eq_true_eq]

unseal Rat.inv Rat.mul Rat.add Rat.sub in
/-- C10, counterexample: the distinct-values check inside the decoder
does fail: on the nonempty sequence [0, 1, 2] with 3 distinct values
against K = 2 classes, viterbi raises the range error at the check,
before any table computation. -/
theorem claim_C10_counterexample :
    ([0, 1, 2] : List ℤ) ≠ []
  ∧ viterbi transitionScenario emissionScenario [0, 1, 2]
      = Except.error HmmError.observationRange := by
  decide

end HmmPy
